import Mathlib

/-!
Verification of the forex-dashboard service (`src/app.py`).

The development shallowly embeds the two core components of the program:

* the Ingestion Service `OnlineFirebaseService.process_uploaded_trades`
  (dedup-keyed writes into the `trades` collection), and
* the Aggregation Service `ForexDashboard.get_trades_from_firebase`,
  `ForexDashboard.calculate_stats` and the `/api/equity-curve` route body.

Python dictionaries holding trade records are embedded as the structure
`TradeRec` whose fields are the keys the program reads; a field value of
`none` models the key being absent.  Python floats are embedded as exact
rationals (`ℚ`).  Python exceptions are embedded with `Except PyErr`.
The Firestore collection is embedded as an association list from document
id to document (`Store`); `db.collection(...).document(id).get().exists`
is association-list lookup and `doc_ref.set` is cons.
-/

/-- Python exception kinds relevant to the embedded code. -/
inductive PyErr where
  | valueError
  | typeError
deriving DecidableEq

/-- A Python value that may sit in the `profit` field of an uploaded JSON
record: a number, a string, or some other non-numeric value (e.g. `null`,
a list, a dict), which `float()` rejects with `TypeError`. -/
inductive PyVal where
  | num (q : ℚ)
  | str (s : String)
  | other
deriving DecidableEq

/-- A run of decimal digits, possibly with single underscores between
digits (CPython's numeric-literal underscore rule: `"1_0"` is `10`,
while `"_1"`, `"1_"` and `"1__0"` are rejected), as a natural number. -/
def parseDigitsU (cs : List Char) : Option ℕ :=
  if cs.isEmpty then none
  else if (cs.splitOn '_').all (fun g => !g.isEmpty && g.all (fun c => c.isDigit))
  then
    some ((cs.filter (fun c => c != '_')).foldl
      (fun n c => 10 * n + (c.toNat - 48)) 0)
  else none

/-- The mantissa of a Python float literal: `digits`, `digits.`,
`.digits` or `digits.digits`, as an exact rational. -/
def parseMantissa (cs : List Char) : Option ℚ :=
  match cs.span (fun c => c != '.') with
  | (intPart, []) => (parseDigitsU intPart).map (fun n => (n : ℚ))
  | (intPart, _ :: fracPart) =>
    if fracPart.contains '.' then none
    else
      match intPart, fracPart with
      | [], [] => none
      | [], f => (parseDigitsU f).map
          (fun n => (n : ℚ) / (10 : ℚ) ^ (f.filter (fun c => c != '_')).length)
      | i, [] => (parseDigitsU i).map (fun n => (n : ℚ))
      | i, f =>
        match parseDigitsU i, parseDigitsU f with
        | some a, some b =>
          some ((a : ℚ) +
            (b : ℚ) / (10 : ℚ) ^ (f.filter (fun c => c != '_')).length)
        | _, _ => none

/-- The exponent of a Python float literal: optional sign and digits. -/
def parseExp (cs : List Char) : Option ℤ :=
  match cs with
  | '+' :: rest => (parseDigitsU rest).map (fun n => (n : ℤ))
  | '-' :: rest => (parseDigitsU rest).map (fun n => -(n : ℤ))
  | rest => (parseDigitsU rest).map (fun n => (n : ℤ))

/-- A Python float literal after the optional leading sign: a mantissa
optionally followed by an `e`/`E` exponent. -/
def parseFloatBody (cs : List Char) : Option ℚ :=
  match cs.span (fun c => c != 'e' && c != 'E') with
  | (mant, []) => parseMantissa mant
  | (mant, _ :: ex) =>
    match parseMantissa mant, parseExp ex with
    | some m, some e => some (m * (10 : ℚ) ^ e)
    | _, _ => none

/-- Model of Python `float(s)` on a string: optional surrounding
whitespace, an optional sign, and a decimal mantissa (with single
underscores allowed between digits) optionally followed by a decimal
exponent; an accepted literal parses to its exact rational value and
anything else (e.g. `"abc"`) is rejected.  The non-finite literals
`inf`/`infinity`/`nan` denote values that lie outside the
exact-rational embedding of floats and are left out of the model, as
are non-ASCII digits. -/
def parsePyFloat (s : String) : Option ℚ :=
  let cs := ((s.data.dropWhile (fun c => c.isWhitespace)).reverse.dropWhile
    (fun c => c.isWhitespace)).reverse
  match cs with
  | '+' :: rest => parseFloatBody rest
  | '-' :: rest => (parseFloatBody rest).map (fun q => -q)
  | rest => parseFloatBody rest

/-- Model of Python `float(v)`: numbers pass through, strings are parsed
(`ValueError` on failure), other values raise `TypeError`. -/
def pyFloat : PyVal → Except PyErr ℚ
  | .num q => .ok q
  | .str s =>
    match parsePyFloat s with
    | some q => .ok q
    | none => .error .valueError
  | .other => .error .typeError

/-- A trade record: the embedding of the Python dict uploaded to
`/api/upload-trades` and stored in the `trades` collection.  `none`
models an absent key.  `firebase_timestamp` is the storage-assigned
ingestion marker (`firestore.SERVER_TIMESTAMP`); `true` models the key
being present. -/
structure TradeRec where
  symbol : Option String := none
  trade_type : Option String := none
  timestamp : Option String := none
  close_time : Option String := none
  profit : Option PyVal := none
  firebase_timestamp : Bool := false
deriving DecidableEq

/-- `app.py` line 31: the per-character effect of
`timestamp.replace(' ', '_').replace(':', '-').replace('.', '_')`.
The three `str.replace` calls are single-character substitutions whose
outputs (`_`, `-`) are never a later call's pattern, so the chain equals
one character-wise map. -/
def sanitizeChar (c : Char) : Char :=
  if c = ' ' then '_' else if c = ':' then '-' else if c = '.' then '_' else c

/-- Sanitized timestamp used inside the derived trade identifier. -/
def sanitizeTimestamp (ts : String) : String :=
  ⟨ts.data.map sanitizeChar⟩

/-- `app.py` line 31: the derived trade identifier
`f"{symbol}_{timestamp.replace(' ', '_').replace(':', '-').replace('.', '_')}"`. -/
def tradeId (symbol ts : String) : String :=
  symbol ++ "_" ++ sanitizeTimestamp ts

/-- The derived identifier of a record, when `symbol` and `timestamp`
are both present (`trade_data['symbol']` / `trade_data['timestamp']`
raise `KeyError` otherwise). -/
def tradeIdOf (r : TradeRec) : Option String :=
  match r.symbol, r.timestamp with
  | some s, some ts => some (tradeId s ts)
  | _, _ => none

/-- The `trades` Firestore collection: document id ↦ document. -/
def Store : Type := List (String × TradeRec)

instance : DecidableEq Store := by
  unfold Store
  infer_instance

/-- Existence check `doc_ref.get().exists` on the embedded collection. -/
def Store.existsDoc (store : Store) (id : String) : Bool :=
  (List.lookup id store).isSome

/-- Write `doc_ref.set trade_data` on the embedded collection. -/
def Store.setDoc (store : Store) (id : String) (r : TradeRec) : Store :=
  (id, r) :: store

/-- One iteration of the loop in
`OnlineFirebaseService.process_uploaded_trades` (`app.py` lines 29-42):
compute the derived id (a missing `symbol`/`timestamp` raises `KeyError`,
caught by the `except` and skipped), check existence, and if absent set
`trade_data['firebase_timestamp']` on the caller's dict and write it.
Returns (count increment, updated store, the caller's record after the
call — mutated in place when written). -/
def processOne (store : Store) (r : TradeRec) : ℕ × Store × TradeRec :=
  match tradeIdOf r with
  | none => (0, store, r)
  | some tid =>
    if store.existsDoc tid then (0, store, r)
    else
      let r' := { r with firebase_timestamp := true }
      (1, store.setDoc tid r', r')

/-- `OnlineFirebaseService.process_uploaded_trades` (`app.py` lines
25-44): fold `processOne` over the batch, returning the
`uploaded_count`, the final store, and the caller's list of records
after the call (aliasing the mutated dicts). -/
def process_uploaded_trades (store : Store) : List TradeRec → ℕ × Store × List TradeRec
  | [] => (0, store, [])
  | r :: rs =>
    let step := processOne store r
    let rest := process_uploaded_trades step.2.1 rs
    (step.1 + rest.1, rest.2.1, step.2.2 :: rest.2.2)

/-! ## Aggregation Service -/

/-- `x.get('timestamp', '')`: the sort key used by both the descending
Firestore query and the equity-curve ascending sort. -/
def tsKey (r : TradeRec) : String := r.timestamp.getD ""

/-- Lexicographic `≤` on character lists by code point, the comparison
Python uses on `str`. -/
def lexLe : List Char → List Char → Bool
  | [], _ => true
  | _ :: _, [] => false
  | a :: as, b :: bs =>
    if a.toNat < b.toNat then true
    else if b.toNat < a.toNat then false
    else lexLe as bs

/-- Python string `≤` (lexicographic by code point). -/
def strLe (a b : String) : Bool := lexLe a.data b.data

/-- Ascending-by-`timestamp` order on trade records (the `sorted` key
in the `/api/equity-curve` route, `app.py` lines 147-151). -/
def ascByTs (a b : TradeRec) : Prop := strLe (tsKey a) (tsKey b) = true

instance : DecidableRel ascByTs := fun a b => by
  unfold ascByTs
  infer_instance

/-- Descending-by-`timestamp` order: the
`order_by('timestamp', direction=DESCENDING)` Firestore query ordering
(`app.py` line 55). -/
def descByTs (a b : TradeRec) : Prop := strLe (tsKey b) (tsKey a) = true

instance : DecidableRel descByTs := fun a b => by
  unfold descByTs
  infer_instance

/-- `app.py` lines 61-62: drop the `firebase_timestamp` key from a
returned document, when present. -/
def stripFirebase (r : TradeRec) : TradeRec :=
  if r.firebase_timestamp then { r with firebase_timestamp := false } else r

/-- `ForexDashboard.get_trades_from_firebase` (`app.py` lines 52-69):
stream the trade collection ordered descending by `timestamp` (a stable
sort models the collaborator's query ordering), capped at `limit`, with
`firebase_timestamp` deleted from each returned dict. -/
def get_trades_from_firebase (store : Store) (limit : ℕ) : List TradeRec :=
  ((List.insertionSort descByTs (store.map Prod.snd)).take limit).map stripFirebase

/-- The statistics summary returned by `ForexDashboard.calculate_stats`. -/
structure Stats where
  total_trades : ℕ
  total_profit : ℚ
  winning_trades : ℕ
  losing_trades : ℕ
  win_rate : ℚ
  avg_profit : ℚ
  last_trade_time : String
deriving DecidableEq

/-- Python `round(q, 2)`: round half to even at two decimal places
(on the exact value; floats are embedded as exact rationals). -/
def round2 (q : ℚ) : ℚ :=
  let n : ℤ := ⌊q * 100⌋
  let frac : ℚ := q * 100 - (n : ℚ)
  if frac < 1 / 2 then (n : ℚ) / 100
  else if 1 / 2 < frac then ((n + 1 : ℤ) : ℚ) / 100
  else if n % 2 = 0 then (n : ℚ) / 100 else ((n + 1 : ℤ) : ℚ) / 100

/-- `float(trade.get('profit', 0))`: the profit coercion shared by
`calculate_stats` and the equity-curve loop. -/
def profitOf (r : TradeRec) : Except PyErr ℚ :=
  pyFloat (r.profit.getD (.num 0))

/-- Left-to-right effectful map over `Except`: the first record whose
coercion raises aborts the whole computation, as a Python generator
inside `sum(...)` does. -/
def mapE (f : α → Except PyErr β) : List α → Except PyErr (List β)
  | [] => .ok []
  | a :: as =>
    match f a with
    | .error e => .error e
    | .ok b =>
      match mapE f as with
      | .error e => .error e
      | .ok bs => .ok (b :: bs)

/-- `ForexDashboard.calculate_stats` (`app.py` lines 71-105).  The
`if total_trades > 0 else 0` guards on `win_rate` and `avg_profit` are
vacuous in the non-empty branch and the division is taken directly;
`trades[0]['timestamp']` raising `KeyError` is caught and replaced by
`'Unknown'` (lines 92-95). -/
def calculate_stats : List TradeRec → Except PyErr Stats
  | [] =>
    .ok { total_trades := 0, total_profit := 0, winning_trades := 0,
          losing_trades := 0, win_rate := 0, avg_profit := 0,
          last_trade_time := "No trades yet" }
  | t0 :: rest =>
    match mapE profitOf (t0 :: rest) with
    | .error e => .error e
    | .ok profits =>
      let total_trades := (t0 :: rest).length
      let total_profit := profits.sum
      let winning_trades := (profits.filter (fun p => decide (0 < p))).length
      let losing_trades := total_trades - winning_trades
      let win_rate := ((winning_trades : ℚ) / (total_trades : ℚ)) * 100
      let avg_profit := total_profit / (total_trades : ℚ)
      let ltt :=
        match t0.timestamp with
        | some ts => ts
        | none => "Unknown"
      .ok { total_trades := total_trades, total_profit := round2 total_profit,
            winning_trades := winning_trades, losing_trades := losing_trades,
            win_rate := round2 win_rate, avg_profit := round2 avg_profit,
            last_trade_time := ltt }

/-- One point of the equity curve. -/
structure EquityPoint where
  date : String
  equity : ℚ
deriving DecidableEq

/-- `trade.get('close_time', trade.get('timestamp', ''))`
(`app.py` line 159). -/
def dateOf (r : TradeRec) : String :=
  r.close_time.getD (r.timestamp.getD "")

/-- The accumulation loop of the `/api/equity-curve` route
(`app.py` lines 153-164): add each coerced profit to the running total
and emit a point per trade. -/
def equityLoop (running : ℚ) : List TradeRec → Except PyErr (List EquityPoint)
  | [] => .ok []
  | t :: ts =>
    match profitOf t with
    | .error e => .error e
    | .ok p =>
      match equityLoop (running + p) ts with
      | .error e => .error e
      | .ok pts => .ok (⟨dateOf t, round2 (running + p)⟩ :: pts)

/-- The stable ascending sort of the `/api/equity-curve` route
(`app.py` lines 147-151). -/
def sortAsc (trades : List TradeRec) : List TradeRec :=
  List.insertionSort ascByTs trades

/-- The `/api/equity-curve` route body over an in-memory window of
trades (`app.py` lines 140-164): empty window short-circuits to `[]`,
otherwise sort ascending by `timestamp` and run the accumulation loop
from `running_profit = 0`. -/
def equity_curve (trades : List TradeRec) : Except PyErr (List EquityPoint) :=
  if trades.isEmpty then .ok []
  else equityLoop 0 (sortAsc trades)

/-! ## Order lemmas for the timestamp sort key -/

theorem lexLe_cons {a b : Char} {as bs : List Char} :
    lexLe (a :: as) (b :: bs) = true ↔
      a.toNat < b.toNat ∨ (a.toNat = b.toNat ∧ lexLe as bs = true) := by
  by_cases h1 : a.toNat < b.toNat
  · simp [lexLe, h1]
  · by_cases h2 : b.toNat < a.toNat
    · simp only [lexLe, if_neg h1, if_pos h2]
      constructor
      · intro h
        exact absurd h (by simp)
      · intro h
        rcases h with h | ⟨h, _⟩
        · exact absurd h h1
        · omega
    · have heq : a.toNat = b.toNat := by omega
      simp [lexLe, h1, h2, heq]

theorem lexLe_total : ∀ as bs : List Char, lexLe as bs = true ∨ lexLe bs as = true
  | [], _ => by left; rfl
  | _ :: _, [] => by right; rfl
  | a :: as, b :: bs => by
    rcases lexLe_total as bs with h | h
    · by_cases hab : a.toNat < b.toNat
      · exact Or.inl (lexLe_cons.mpr (Or.inl hab))
      · by_cases hba : b.toNat < a.toNat
        · exact Or.inr (lexLe_cons.mpr (Or.inl hba))
        · exact Or.inl (lexLe_cons.mpr (Or.inr ⟨by omega, h⟩))
    · by_cases hba : b.toNat < a.toNat
      · exact Or.inr (lexLe_cons.mpr (Or.inl hba))
      · by_cases hab : a.toNat < b.toNat
        · exact Or.inl (lexLe_cons.mpr (Or.inl hab))
        · exact Or.inr (lexLe_cons.mpr (Or.inr ⟨by omega, h⟩))

theorem lexLe_trans :
    ∀ {as bs cs : List Char},
      lexLe as bs = true → lexLe bs cs = true → lexLe as cs = true
  | [], _, _, _, _ => rfl
  | _ :: _, [], _, h, _ => by simp [lexLe] at h
  | _ :: _, _ :: _, [], _, h => by simp [lexLe] at h
  | a :: as, b :: bs, c :: cs, h1, h2 => by
    rcases lexLe_cons.mp h1 with hab | ⟨hab, htl1⟩ <;>
      rcases lexLe_cons.mp h2 with hbc | ⟨hbc, htl2⟩
    · exact lexLe_cons.mpr (Or.inl (by omega))
    · exact lexLe_cons.mpr (Or.inl (by omega))
    · exact lexLe_cons.mpr (Or.inl (by omega))
    · exact lexLe_cons.mpr (Or.inr ⟨by omega, lexLe_trans htl1 htl2⟩)

theorem lexLe_antisymm :
    ∀ {as bs : List Char}, lexLe as bs = true → lexLe bs as = true → as = bs
  | [], [], _, _ => rfl
  | [], _ :: _, _, h => by simp [lexLe] at h
  | _ :: _, [], h, _ => by simp [lexLe] at h
  | a :: as, b :: bs, h1, h2 => by
    rcases lexLe_cons.mp h1 with hab | ⟨hab, htl1⟩ <;>
      rcases lexLe_cons.mp h2 with hba | ⟨hba, htl2⟩
    · omega
    · omega
    · omega
    · have : a = b := Char.ext (UInt32.ext hab)
      rw [this, lexLe_antisymm htl1 htl2]

theorem strLe_total (a b : String) : strLe a b = true ∨ strLe b a = true :=
  lexLe_total a.data b.data

theorem strLe_trans {a b c : String} (h1 : strLe a b = true)
    (h2 : strLe b c = true) : strLe a c = true :=
  lexLe_trans h1 h2

theorem strLe_antisymm {a b : String} (h1 : strLe a b = true)
    (h2 : strLe b a = true) : a = b := by
  cases a
  cases b
  exact congrArg String.mk (lexLe_antisymm h1 h2)

instance : IsTotal TradeRec ascByTs :=
  ⟨fun a b => strLe_total (tsKey a) (tsKey b)⟩

instance : IsTrans TradeRec ascByTs :=
  ⟨fun _ _ _ h1 h2 => strLe_trans h1 h2⟩

instance : IsTotal TradeRec descByTs :=
  ⟨fun a b => (strLe_total (tsKey a) (tsKey b)).symm⟩

instance : IsTrans TradeRec descByTs :=
  ⟨fun _ _ _ h1 h2 => strLe_trans h2 h1⟩

/-! ## Spec-side quantities and characterization lemmas -/

instance : Inhabited TradeRec := ⟨{}⟩

/-- The coerced profit of a record when the coercion succeeds
(placeholder `0` otherwise). -/
def profitVal (r : TradeRec) : ℚ :=
  match profitOf r with
  | .ok q => q
  | .error _ => 0

/-- The profit coercion `float(trade.get('profit', 0))` succeeds on `r`:
`profit` is absent, a number, or a numeric string. -/
def ProfitOk (r : TradeRec) : Prop := (profitOf r).isOk = true

instance : DecidablePred ProfitOk := fun r => by
  unfold ProfitOk
  infer_instance

/-- Sum of the coerced profits of a window. -/
def profitSum (l : List TradeRec) : ℚ := (l.map profitVal).sum

/-- Number of trades in a window whose coerced profit is strictly
positive. -/
def winCount (l : List TradeRec) : ℕ :=
  l.countP (fun r => decide (0 < profitVal r))

/-- A well-formed trade record per the data model: `timestamp` present
and profit coercible. -/
def WFTrade (r : TradeRec) : Prop :=
  r.timestamp.isSome = true ∧ ProfitOk r

instance : DecidablePred WFTrade := fun r => by
  unfold WFTrade
  infer_instance

theorem profitOf_eq_ok {r : TradeRec} (h : ProfitOk r) :
    profitOf r = .ok (profitVal r) := by
  unfold ProfitOk at h
  unfold profitVal
  cases hp : profitOf r with
  | error e => rw [hp] at h; simp [Except.isOk, Except.toBool] at h
  | ok q => rfl

theorem mapE_profitOf_ok :
    ∀ {l : List TradeRec}, (∀ r ∈ l, ProfitOk r) →
      mapE profitOf l = .ok (l.map profitVal)
  | [], _ => rfl
  | r :: rs, h => by
    have hr := profitOf_eq_ok (h r (List.mem_cons_self r rs))
    have hrs := mapE_profitOf_ok (fun x hx => h x (List.mem_cons_of_mem r hx))
    simp [mapE, hr, hrs]

theorem winCount_eq :
    ∀ l : List TradeRec,
      ((l.map profitVal).filter (fun p => decide (0 < p))).length = winCount l
  | [] => rfl
  | r :: rs => by
    simp only [List.map_cons, List.filter_cons, winCount, List.countP_cons]
    by_cases h : 0 < profitVal r
    · simp [h, winCount_eq rs, winCount]
    · simp [h, winCount_eq rs, winCount]

/-- What `calculate_stats` returns on a non-empty window whose profits
all coerce. -/
theorem calculate_stats_ok (t0 : TradeRec) (rest : List TradeRec)
    (hall : ∀ r ∈ t0 :: rest, ProfitOk r) :
    calculate_stats (t0 :: rest) = .ok {
      total_trades := (t0 :: rest).length,
      total_profit := round2 (profitSum (t0 :: rest)),
      winning_trades := winCount (t0 :: rest),
      losing_trades := (t0 :: rest).length - winCount (t0 :: rest),
      win_rate :=
        round2 ((winCount (t0 :: rest) : ℚ) / ((t0 :: rest).length : ℚ) * 100),
      avg_profit := round2 (profitSum (t0 :: rest) / ((t0 :: rest).length : ℚ)),
      last_trade_time :=
        match t0.timestamp with
        | some ts => ts
        | none => "Unknown" } := by
  have hm := mapE_profitOf_ok hall
  simp only [calculate_stats, hm, profitSum, winCount_eq (t0 :: rest)]

/-- Spec-side form of the equity accumulation: starting from total `a`,
each trade's point carries the running total rounded to two decimals. -/
def equityPts (a : ℚ) : List TradeRec → List EquityPoint
  | [] => []
  | t :: ts => ⟨dateOf t, round2 (a + profitVal t)⟩ :: equityPts (a + profitVal t) ts

theorem equityLoop_ok :
    ∀ (l : List TradeRec) (a : ℚ), (∀ r ∈ l, ProfitOk r) →
      equityLoop a l = .ok (equityPts a l)
  | [], _, _ => rfl
  | t :: ts, a, h => by
    have ht := profitOf_eq_ok (h t (List.mem_cons_self t ts))
    have hts := equityLoop_ok ts (a + profitVal t)
      (fun x hx => h x (List.mem_cons_of_mem t hx))
    simp [equityLoop, equityPts, ht, hts]

theorem equityPts_length : ∀ (l : List TradeRec) (a : ℚ),
    (equityPts a l).length = l.length
  | [], _ => rfl
  | _ :: ts, a => by simp [equityPts, equityPts_length ts]

theorem equityPts_getD (d : EquityPoint) (dr : TradeRec) :
    ∀ (l : List TradeRec) (a : ℚ) (i : ℕ), i < l.length →
      (equityPts a l).getD i d =
        ⟨dateOf (l.getD i dr), round2 (a + profitSum (l.take (i + 1)))⟩
  | [], _, i, hi => absurd hi (by simp)
  | t :: ts, a, 0, _ => by
    simp [equityPts, profitSum]
  | t :: ts, a, i + 1, hi => by
    have hi' : i < ts.length := by simpa using hi
    have ih := equityPts_getD d dr ts (a + profitVal t) i hi'
    simp only [equityPts, List.getD_cons_succ, List.take_succ_cons, ih, profitSum,
      List.map_cons, List.sum_cons]
    rw [add_assoc]

/-- Trades with pairwise-distinct timestamps sort to the same sequence
from any input order. -/
theorem sortAsc_eq_of_perm {l₁ l₂ : List TradeRec} (hp : l₁.Perm l₂)
    (hd : l₁.Pairwise (fun a b => tsKey a ≠ tsKey b)) :
    sortAsc l₁ = sortAsc l₂ := by
  have hsymm : Symmetric (fun a b : TradeRec => tsKey a ≠ tsKey b) :=
    fun _ _ hab heq => hab heq.symm
  have hperm : (sortAsc l₁).Perm (sortAsc l₂) :=
    ((List.perm_insertionSort ascByTs l₁).trans hp).trans
      (List.perm_insertionSort ascByTs l₂).symm
  have hd₁ : (sortAsc l₁).Pairwise (fun a b => tsKey a ≠ tsKey b) :=
    ((List.perm_insertionSort ascByTs l₁).pairwise_iff @hsymm).mpr hd
  have hd₂ : (sortAsc l₂).Pairwise (fun a b => tsKey a ≠ tsKey b) :=
    (hperm.pairwise_iff @hsymm).mp hd₁
  have hs₁ : (sortAsc l₁).Pairwise (fun a b => ascByTs a b ∧ tsKey a ≠ tsKey b) :=
    (List.sorted_insertionSort ascByTs l₁).and hd₁
  have hs₂ : (sortAsc l₂).Pairwise (fun a b => ascByTs a b ∧ tsKey a ≠ tsKey b) :=
    (List.sorted_insertionSort ascByTs l₂).and hd₂
  haveI : IsAntisymm TradeRec (fun a b => ascByTs a b ∧ tsKey a ≠ tsKey b) :=
    ⟨fun _ _ ha hb => (ha.2 (strLe_antisymm ha.1 hb.1)).elim⟩
  exact List.eq_of_perm_of_sorted hperm hs₁ hs₂

/-- Number of documents in the collection carrying a given id. -/
def countKey (store : Store) (id : String) : ℕ :=
  (store.filter (fun e => decide (e.1 = id))).length

theorem countKey_eq_zero :
    ∀ {store : Store} {id : String}, store.existsDoc id = false →
      countKey store id = 0
  | [], _, _ => rfl
  | (k, v) :: st, id, h => by
    simp only [Store.existsDoc, List.lookup] at h
    by_cases hk : id = k
    · rw [hk] at h
      simp at h
    · have htl : Store.existsDoc st id = false := by
        have hbeq : (id == k) = false := by
          simp [hk]
        simpa [Store.existsDoc, List.lookup, hbeq] using h
      have := countKey_eq_zero htl
      simp only [countKey, List.filter] at this ⊢
      have hk' : k ≠ id := fun hkk => hk hkk.symm
      simp [hk', this]

/-! ## Claims -/

/-- **C1.** Submitting a trade record holding `symbol` and `timestamp`
twice, starting from a store without its derived identifier, uploads it
exactly once: the combined `uploaded_count` over both calls is 1, the
second submission writes nothing (the store is unchanged), and after
both calls the store holds exactly one document keyed by the record's
derived identifier. -/
theorem ingest_twice_uploads_once (store : Store) (r : TradeRec)
    (s ts : String) (hs : r.symbol = some s) (ht : r.timestamp = some ts)
    (habs : store.existsDoc (tradeId s ts) = false) :
    (process_uploaded_trades store [r]).1 +
      (process_uploaded_trades (process_uploaded_trades store [r]).2.1 [r]).1 = 1 ∧
    (process_uploaded_trades (process_uploaded_trades store [r]).2.1 [r]).2.1 =
      (process_uploaded_trades store [r]).2.1 ∧
    countKey
      (process_uploaded_trades (process_uploaded_trades store [r]).2.1 [r]).2.1
      (tradeId s ts) = 1 := by
  have hid : tradeIdOf r = some (tradeId s ts) := by
    simp [tradeIdOf, hs, ht]
  have hstep1 : processOne store r =
      (1, (tradeId s ts, { r with firebase_timestamp := true }) :: store,
        { r with firebase_timestamp := true }) := by
    simp [processOne, hid, habs, Store.setDoc]
  have hrun1 : process_uploaded_trades store [r] =
      (1, (tradeId s ts, { r with firebase_timestamp := true }) :: store,
        [{ r with firebase_timestamp := true }]) := by
    simp [process_uploaded_trades, hstep1]
  have hex2 : Store.existsDoc
      ((tradeId s ts, { r with firebase_timestamp := true }) :: store)
      (tradeId s ts) = true := by
    simp [Store.existsDoc, List.lookup]
  have hstep2 : processOne
      ((tradeId s ts, { r with firebase_timestamp := true }) :: store) r =
      (0, (tradeId s ts, { r with firebase_timestamp := true }) :: store, r) := by
    simp [processOne, hid, hex2]
  have hrun2 : process_uploaded_trades
      ((tradeId s ts, { r with firebase_timestamp := true }) :: store) [r] =
      (0, (tradeId s ts, { r with firebase_timestamp := true }) :: store, [r]) := by
    simp [process_uploaded_trades, hstep2]
  refine ⟨?_, ?_, ?_⟩
  · simp [hrun1, hrun2]
  · simp [hrun1, hrun2]
  · simp only [hrun1, hrun2]
    simp only [countKey, List.filter, decide_eq_true_eq]
    have h0 := countKey_eq_zero habs
    simp only [countKey] at h0
    simp [h0]

/-- Witness for C1 at a concrete record and the empty store. -/
theorem ingest_twice_uploads_once_witness :
    ((⟨some "EURUSD", some "buy", some "2024-01-02 03:04:05", none, none,
        false⟩ : TradeRec).symbol = some "EURUSD" ∧
     (⟨some "EURUSD", some "buy", some "2024-01-02 03:04:05", none, none,
        false⟩ : TradeRec).timestamp = some "2024-01-02 03:04:05" ∧
     Store.existsDoc [] (tradeId "EURUSD" "2024-01-02 03:04:05") = false) ∧
    ((process_uploaded_trades []
        [⟨some "EURUSD", some "buy", some "2024-01-02 03:04:05", none, none,
          false⟩]).1 +
      (process_uploaded_trades
        (process_uploaded_trades []
          [⟨some "EURUSD", some "buy", some "2024-01-02 03:04:05", none, none,
            false⟩]).2.1
        [⟨some "EURUSD", some "buy", some "2024-01-02 03:04:05", none, none,
          false⟩]).1 = 1 ∧
     (process_uploaded_trades
        (process_uploaded_trades []
          [⟨some "EURUSD", some "buy", some "2024-01-02 03:04:05", none, none,
            false⟩]).2.1
        [⟨some "EURUSD", some "buy", some "2024-01-02 03:04:05", none, none,
          false⟩]).2.1 =
       (process_uploaded_trades []
         [⟨some "EURUSD", some "buy", some "2024-01-02 03:04:05", none, none,
           false⟩]).2.1 ∧
     countKey
       (process_uploaded_trades
         (process_uploaded_trades []
           [⟨some "EURUSD", some "buy", some "2024-01-02 03:04:05", none, none,
             false⟩]).2.1
         [⟨some "EURUSD", some "buy", some "2024-01-02 03:04:05", none, none,
           false⟩]).2.1
       (tradeId "EURUSD" "2024-01-02 03:04:05") = 1) :=
  ⟨⟨rfl, rfl, rfl⟩,
    ingest_twice_uploads_once [] _ "EURUSD" "2024-01-02 03:04:05" rfl rfl rfl⟩

/-- **C6 (amended).** Records whose `symbol` or `timestamp` key is
missing are skipped without aborting the batch: the `uploaded_count`
and the final store are those of the batch restricted to records whose
derived identifier is computable.  (Empty-string values are not
rejected; see the counterexample.) -/
theorem ingest_skips_missing_fields :
    ∀ (rs : List TradeRec) (store : Store),
      (process_uploaded_trades store rs).1 =
        (process_uploaded_trades store
          (rs.filter (fun r => (tradeIdOf r).isSome))).1 ∧
      (process_uploaded_trades store rs).2.1 =
        (process_uploaded_trades store
          (rs.filter (fun r => (tradeIdOf r).isSome))).2.1
  | [], _ => ⟨rfl, rfl⟩
  | r :: rs, store => by
    have ih := ingest_skips_missing_fields rs
    cases h : tradeIdOf r with
    | none =>
      have hstep : processOne store r = (0, store, r) := by
        simp [processOne, h]
      have hfil : (r :: rs).filter (fun r => (tradeIdOf r).isSome) =
          rs.filter (fun r => (tradeIdOf r).isSome) := by
        simp [List.filter_cons, h]
      constructor
      · simp [process_uploaded_trades, hstep, hfil, (ih store).1]
      · simp [process_uploaded_trades, hstep, hfil, (ih store).2]
    | some tid =>
      have hfil : (r :: rs).filter (fun r => (tradeIdOf r).isSome) =
          r :: rs.filter (fun r => (tradeIdOf r).isSome) := by
        simp [List.filter_cons, h]
      constructor
      · simp [process_uploaded_trades, hfil, (ih (processOne store r).2.1).1]
      · simp [process_uploaded_trades, hfil, (ih (processOne store r).2.1).2]

/-- **C6 counterexample.** A record whose `symbol` is the empty string
passes the (non-existent) validation: it is written and counted, where
the claim demands it be skipped. -/
theorem empty_symbol_is_written :
    (⟨some "", some "buy", some "t", none, none, false⟩ : TradeRec).symbol =
      some "" ∧
    (process_uploaded_trades []
      [⟨some "", some "buy", some "t", none, none, false⟩]).1 = 1 ∧
    (process_uploaded_trades []
      [⟨some "", some "buy", some "t", none, none, false⟩]).2.1 ≠ [] := by
  refine ⟨rfl, rfl, ?_⟩
  simp [process_uploaded_trades, processOne, tradeIdOf, Store.existsDoc,
    Store.setDoc]

/-- **C7 (amended).** A batch of records that all carry `symbol` and
`timestamp` and whose derived identifiers are pairwise distinct and
absent from the store uploads them all: `uploaded_count` equals the
batch length.  (Pairwise-distinct `(symbol, timestamp)` pairs are not
enough: distinct pairs can collide on the sanitized identifier, see the
counterexample.) -/
theorem ingest_distinct_ids :
    ∀ (rs : List TradeRec) (store : Store),
      (∀ r ∈ rs, (tradeIdOf r).isSome = true) →
      (rs.filterMap tradeIdOf).Nodup →
      (∀ tid ∈ rs.filterMap tradeIdOf, store.existsDoc tid = false) →
      (process_uploaded_trades store rs).1 = rs.length
  | [], _, _, _, _ => rfl
  | r :: rs, store, hval, hnd, habs => by
    obtain ⟨tid, htid⟩ : ∃ tid, tradeIdOf r = some tid := by
      have hv := hval r (List.mem_cons_self r rs)
      cases h : tradeIdOf r with
      | none => rw [h] at hv; simp at hv
      | some t => exact ⟨t, rfl⟩
    have hfm : (r :: rs).filterMap tradeIdOf = tid :: rs.filterMap tradeIdOf := by
      simp [List.filterMap_cons, htid]
    rw [hfm] at hnd habs
    have hnd' := List.nodup_cons.mp hnd
    have habs_r : store.existsDoc tid = false :=
      habs tid (List.mem_cons_self tid _)
    have hstep : processOne store r =
        (1, (tid, { r with firebase_timestamp := true }) :: store,
          { r with firebase_timestamp := true }) := by
      simp [processOne, htid, habs_r, Store.setDoc]
    have habs' : ∀ t' ∈ rs.filterMap tradeIdOf,
        Store.existsDoc ((tid, { r with firebase_timestamp := true }) :: store)
          t' = false := by
      intro t' ht'
      have hne : t' ≠ tid := fun he => hnd'.1 (he ▸ ht')
      have hst : store.existsDoc t' = false :=
        habs t' (List.mem_cons_of_mem tid ht')
      have hbeq : (t' == tid) = false := by
        simp [hne]
      simpa [Store.existsDoc, List.lookup, hbeq] using hst
    have ih := ingest_distinct_ids rs
      ((tid, { r with firebase_timestamp := true }) :: store)
      (fun x hx => hval x (List.mem_cons_of_mem r hx)) hnd'.2 habs'
    simp only [process_uploaded_trades, hstep, ih, List.length_cons]
    omega

/-- Witness for C7 (amended) at two concrete records and the empty
store. -/
theorem ingest_distinct_ids_witness :
    ((∀ r ∈ [(⟨some "EURUSD", some "buy", some "t1", none, none,
          false⟩ : TradeRec),
        ⟨some "GBPUSD", some "sell", some "t2", none, none, false⟩],
        (tradeIdOf r).isSome = true) ∧
     ([(⟨some "EURUSD", some "buy", some "t1", none, none,
          false⟩ : TradeRec),
        ⟨some "GBPUSD", some "sell", some "t2", none, none,
          false⟩].filterMap tradeIdOf).Nodup ∧
     (∀ tid ∈ [(⟨some "EURUSD", some "buy", some "t1", none, none,
          false⟩ : TradeRec),
        ⟨some "GBPUSD", some "sell", some "t2", none, none,
          false⟩].filterMap tradeIdOf,
        Store.existsDoc [] tid = false)) ∧
    (process_uploaded_trades []
      [⟨some "EURUSD", some "buy", some "t1", none, none, false⟩,
       ⟨some "GBPUSD", some "sell", some "t2", none, none, false⟩]).1 = 2 := by
  refine ⟨⟨by decide, by decide, by decide⟩, ?_⟩
  exact ingest_distinct_ids _ [] (by decide) (by decide) (by decide)

/-- **C7 counterexample.** Two structurally valid records with distinct
`(symbol, timestamp)` pairs whose sanitized identifiers collide
(`"A" + "_" + "B_C"` and `"A_B" + "_" + "C"` are both `"A_B_C"`): the
second is treated as a duplicate, so `uploaded_count` is 1, not 2. -/
theorem distinct_pairs_may_collide :
    ((⟨some "A", some "buy", some "B.C", none, none, false⟩ : TradeRec).symbol ≠
      (⟨some "A_B", some "sell", some "C", none, none, false⟩ :
        TradeRec).symbol) ∧
    ((⟨some "A", some "buy", some "B.C", none, none, false⟩ :
        TradeRec).timestamp ≠
      (⟨some "A_B", some "sell", some "C", none, none, false⟩ :
        TradeRec).timestamp) ∧
    (process_uploaded_trades []
      [⟨some "A", some "buy", some "B.C", none, none, false⟩,
       ⟨some "A_B", some "sell", some "C", none, none, false⟩]).1 = 1 ∧
    (process_uploaded_trades []
      [⟨some "A", some "buy", some "B.C", none, none, false⟩,
       ⟨some "A_B", some "sell", some "C", none, none, false⟩]).1 ≠ 2 := by
  refine ⟨by decide, by decide, ?_, ?_⟩ <;> decide

/-- Which records of a batch get newly written: mirrors the loop's
existence check as the store evolves. -/
def writeFlags (store : Store) : List TradeRec → List Bool
  | [] => []
  | r :: rs =>
    (match tradeIdOf r with
      | none => false
      | some tid => !store.existsDoc tid) ::
    writeFlags (processOne store r).2.1 rs

/-- **C10.** The Ingestion Service mutates its input in place: the
caller's batch after the call is the submitted batch with
`firebase_timestamp` added to exactly the newly-written records, and
`uploaded_count` counts those records. -/
theorem ingest_mutates_written_records :
    ∀ (rs : List TradeRec) (store : Store),
      (process_uploaded_trades store rs).2.2 =
        List.zipWith
          (fun w r => if w then { r with firebase_timestamp := true } else r)
          (writeFlags store rs) rs ∧
      (process_uploaded_trades store rs).1 = (writeFlags store rs).count true
  | [], _ => ⟨rfl, rfl⟩
  | r :: rs, store => by
    have ih := ingest_mutates_written_records rs (processOne store r).2.1
    cases h : tradeIdOf r with
    | none =>
      have hstep : processOne store r = (0, store, r) := by
        simp [processOne, h]
      rw [hstep] at ih
      constructor
      · simp [process_uploaded_trades, writeFlags, h, hstep, ih.1]
      · simp only [process_uploaded_trades, writeFlags, h, hstep, ih.2,
          List.count_cons]
        simp
    | some tid =>
      cases hex : store.existsDoc tid with
      | true =>
        have hstep : processOne store r = (0, store, r) := by
          simp [processOne, h, hex]
        rw [hstep] at ih
        constructor
        · simp [process_uploaded_trades, writeFlags, h, hex, hstep, ih.1]
        · simp only [process_uploaded_trades, writeFlags, h, hex, hstep, ih.2,
            List.count_cons]
          simp
      | false =>
        have hstep : processOne store r =
            (1, (tid, { r with firebase_timestamp := true }) :: store,
              { r with firebase_timestamp := true }) := by
          simp [processOne, h, hex, Store.setDoc]
        rw [hstep] at ih
        constructor
        · simp [process_uploaded_trades, writeFlags, h, hex, hstep, ih.1]
        · simp only [process_uploaded_trades, writeFlags, h, hex, hstep, ih.2,
            List.count_cons]
          simp
          omega

/-- **C9.** Every record returned by the read operation has the
storage-assigned `firebase_timestamp` field absent, whatever the stored
documents contain. -/
theorem get_trades_strips_firebase_ts (store : Store) (limit : ℕ) :
    ∀ r ∈ get_trades_from_firebase store limit, r.firebase_timestamp = false := by
  intro r hr
  simp only [get_trades_from_firebase, List.mem_map] at hr
  obtain ⟨x, _, hx⟩ := hr
  rw [← hx]
  by_cases h : x.firebase_timestamp <;> simp [stripFirebase, h]

/-- Witness for C9: a stored document carrying `firebase_timestamp` is
returned with the field absent. -/
theorem get_trades_strips_firebase_ts_witness :
    ((⟨some "EURUSD", none, some "t", none, none, false⟩ : TradeRec) ∈
      get_trades_from_firebase
        [("EURUSD_t", ⟨some "EURUSD", none, some "t", none, none, true⟩)] 1) ∧
    (⟨some "EURUSD", none, some "t", none, none, false⟩ :
      TradeRec).firebase_timestamp = false :=
  ⟨by decide,
    get_trades_strips_firebase_ts
      [("EURUSD_t", ⟨some "EURUSD", none, some "t", none, none, true⟩)] 1 _
      (by decide)⟩

/-- **C2.** The statistics computation: the empty window yields the
all-zero record with the `"No trades yet"` sentinel; a non-empty window
of well-formed records yields count, rounded profit sum, positive-profit
count, complement loss count, rounded win percentage, rounded average
over the unrounded sum, and the first (most-recently-ordered) record's
timestamp; and the spec's three-trade example evaluates to the listed
values. -/
theorem calculate_stats_spec :
    calculate_stats [] = .ok ⟨0, 0, 0, 0, 0, 0, "No trades yet"⟩ ∧
    (∀ (t0 : TradeRec) (rest : List TradeRec),
      (∀ r ∈ t0 :: rest, WFTrade r) →
      ∃ ts0, t0.timestamp = some ts0 ∧
        calculate_stats (t0 :: rest) = .ok {
          total_trades := (t0 :: rest).length,
          total_profit := round2 (profitSum (t0 :: rest)),
          winning_trades := winCount (t0 :: rest),
          losing_trades := (t0 :: rest).length - winCount (t0 :: rest),
          win_rate := round2
            ((winCount (t0 :: rest) : ℚ) / ((t0 :: rest).length : ℚ) * 100),
          avg_profit := round2 (profitSum (t0 :: rest) /
            ((t0 :: rest).length : ℚ)),
          last_trade_time := ts0 }) ∧
    calculate_stats
      [⟨none, none, none, none, some (.num 100), false⟩,
       ⟨none, none, none, none, some (.num (-40)), false⟩,
       ⟨none, none, none, none, some (.num 10), false⟩] =
      .ok ⟨3, 70, 2, 1, 6667 / 100, 2333 / 100, "Unknown"⟩ := by
  refine ⟨rfl, ?_, ?_⟩
  · intro t0 rest hwf
    obtain ⟨ts0, hts⟩ : ∃ ts0, t0.timestamp = some ts0 := by
      have h1 := (hwf t0 (List.mem_cons_self t0 rest)).1
      cases h : t0.timestamp with
      | none => rw [h] at h1; simp at h1
      | some ts => exact ⟨ts, rfl⟩
    refine ⟨ts0, hts, ?_⟩
    rw [calculate_stats_ok t0 rest (fun r hr => (hwf r hr).2)]
    simp [hts]
  · rw [calculate_stats_ok _ _ (by intro r hr; fin_cases hr <;> rfl)]
    norm_num [profitSum, profitVal, profitOf, pyFloat, winCount,
      List.countP_cons, List.countP_nil, round2, Stats.mk.injEq]

/-- Witness for C2 at a concrete one-record window. -/
theorem calculate_stats_spec_witness :
    (∀ r ∈ [(⟨none, none, some "t1", none, some (.num 5), false⟩ : TradeRec)],
      WFTrade r) ∧
    (∃ ts0,
      (⟨none, none, some "t1", none, some (.num 5), false⟩ :
        TradeRec).timestamp = some ts0 ∧
      calculate_stats
        [⟨none, none, some "t1", none, some (.num 5), false⟩] = .ok {
        total_trades :=
          [(⟨none, none, some "t1", none, some (.num 5), false⟩ :
            TradeRec)].length,
        total_profit := round2 (profitSum
          [⟨none, none, some "t1", none, some (.num 5), false⟩]),
        winning_trades := winCount
          [⟨none, none, some "t1", none, some (.num 5), false⟩],
        losing_trades :=
          [(⟨none, none, some "t1", none, some (.num 5), false⟩ :
            TradeRec)].length -
          winCount [⟨none, none, some "t1", none, some (.num 5), false⟩],
        win_rate := round2
          ((winCount [⟨none, none, some "t1", none, some (.num 5), false⟩] : ℚ) /
            (([(⟨none, none, some "t1", none, some (.num 5), false⟩ :
              TradeRec)].length : ℚ)) * 100),
        avg_profit := round2
          (profitSum [⟨none, none, some "t1", none, some (.num 5), false⟩] /
            (([(⟨none, none, some "t1", none, some (.num 5), false⟩ :
              TradeRec)].length : ℚ))),
        last_trade_time := ts0 }) :=
  ⟨by intro r hr; simp only [List.mem_singleton] at hr; subst hr;
      exact ⟨rfl, rfl⟩,
    calculate_stats_spec.2.1 _ []
      (by intro r hr; simp only [List.mem_singleton] at hr; subst hr;
          exact ⟨rfl, rfl⟩)⟩

/-- **C4 (amended).** A record with `profit` absent coerces to `0`: it
contributes nothing to the profit sum or to `winning_trades`, but —
because `losing_trades = total_trades - winning_trades` — it *is*
counted among the losing trades. -/
theorem missing_profit_counts_as_loss (pre post : List TradeRec)
    (r : TradeRec) (hr : r.profit = none)
    (hall : ∀ t ∈ pre ++ post, ProfitOk t) :
    profitVal r = 0 ∧
    profitSum (pre ++ r :: post) = profitSum (pre ++ post) ∧
    winCount (pre ++ r :: post) = winCount (pre ++ post) ∧
    ∃ s, calculate_stats (pre ++ r :: post) = .ok s ∧
      s.total_trades = (pre ++ post).length + 1 ∧
      s.winning_trades = winCount (pre ++ post) ∧
      s.losing_trades = (pre ++ post).length + 1 - winCount (pre ++ post) ∧
      s.total_profit = round2 (profitSum (pre ++ post)) := by
  have hr0 : profitOf r = .ok 0 := by
    simp [profitOf, hr, pyFloat]
  have pv0 : profitVal r = 0 := by
    simp [profitVal, hr0]
  have hsum : profitSum (pre ++ r :: post) = profitSum (pre ++ post) := by
    simp [profitSum, pv0]
  have hwin : winCount (pre ++ r :: post) = winCount (pre ++ post) := by
    simp [winCount, List.countP_append, List.countP_cons, pv0]
  have hlen : (pre ++ r :: post).length = (pre ++ post).length + 1 := by
    simp
    omega
  refine ⟨pv0, hsum, hwin, ?_⟩
  obtain ⟨t0, rest, he⟩ : ∃ t0 rest, pre ++ r :: post = t0 :: rest := by
    cases pre with
    | nil => exact ⟨r, post, rfl⟩
    | cons a as => exact ⟨a, as ++ r :: post, rfl⟩
  have hall' : ∀ t ∈ t0 :: rest, ProfitOk t := by
    rw [← he]
    intro t ht
    rcases List.mem_append.mp ht with h1 | h2
    · exact hall t (List.mem_append.mpr (Or.inl h1))
    · rcases List.mem_cons.mp h2 with rfl | h3
      · simp [ProfitOk, hr0, Except.isOk, Except.toBool]
      · exact hall t (List.mem_append.mpr (Or.inr h3))
  refine ⟨_, by rw [he]; exact calculate_stats_ok t0 rest hall', ?_, ?_, ?_, ?_⟩
  · show (t0 :: rest).length = (pre ++ post).length + 1
    rw [← he, hlen]
  · show winCount (t0 :: rest) = winCount (pre ++ post)
    rw [← he, hwin]
  · show (t0 :: rest).length - winCount (t0 :: rest) =
      (pre ++ post).length + 1 - winCount (pre ++ post)
    rw [← he, hlen, hwin]
  · show round2 (profitSum (t0 :: rest)) = round2 (profitSum (pre ++ post))
    rw [← he, hsum]

/-- Witness for C4 (amended) at a one-winner window plus a
missing-profit record. -/
theorem missing_profit_counts_as_loss_witness :
    ((⟨none, none, none, none, none, false⟩ : TradeRec).profit = none ∧
     (∀ t ∈ [(⟨none, none, none, none, some (.num 7), false⟩ : TradeRec)],
        ProfitOk t)) ∧
    (profitVal ⟨none, none, none, none, none, false⟩ = 0 ∧
     profitSum ([⟨none, none, none, none, some (.num 7), false⟩] ++
        (⟨none, none, none, none, none, false⟩ : TradeRec) :: []) =
       profitSum ([⟨none, none, none, none, some (.num 7), false⟩] ++ []) ∧
     winCount ([⟨none, none, none, none, some (.num 7), false⟩] ++
        (⟨none, none, none, none, none, false⟩ : TradeRec) :: []) =
       winCount ([⟨none, none, none, none, some (.num 7), false⟩] ++ []) ∧
     ∃ s, calculate_stats
        ([⟨none, none, none, none, some (.num 7), false⟩] ++
          (⟨none, none, none, none, none, false⟩ : TradeRec) :: []) = .ok s ∧
       s.total_trades =
         ([(⟨none, none, none, none, some (.num 7), false⟩ :
            TradeRec)] ++ []).length + 1 ∧
       s.winning_trades =
         winCount ([⟨none, none, none, none, some (.num 7), false⟩] ++ []) ∧
       s.losing_trades =
         ([(⟨none, none, none, none, some (.num 7), false⟩ :
            TradeRec)] ++ []).length + 1 -
           winCount ([⟨none, none, none, none, some (.num 7), false⟩] ++ []) ∧
       s.total_profit = round2
         (profitSum ([⟨none, none, none, none, some (.num 7), false⟩] ++ []))) :=
  ⟨⟨rfl, by intro t ht; simp only [List.mem_singleton] at ht; subst ht; rfl⟩,
    missing_profit_counts_as_loss
      [⟨none, none, none, none, some (.num 7), false⟩] [] _ rfl
      (by intro t ht; simp only [List.append_nil, List.mem_singleton] at ht;
          subst ht; rfl)⟩

/-- **C4 counterexample.** A single record with `profit` absent yields
`losing_trades = 1`: the record *is* counted as a losing trade, where
the claim demands it count in neither tally. -/
theorem missing_profit_counted_losing :
    (⟨none, none, none, none, none, false⟩ : TradeRec).profit = none ∧
    calculate_stats [⟨none, none, none, none, none, false⟩] =
      .ok ⟨1, 0, 0, 1, 0, 0, "Unknown"⟩ := by
  refine ⟨rfl, ?_⟩
  rw [calculate_stats_ok _ _
    (by intro r hr; simp only [List.mem_singleton] at hr; subst hr; rfl)]
  norm_num [profitSum, profitVal, profitOf, pyFloat, winCount,
    List.countP_cons, List.countP_nil, round2, Stats.mk.injEq]

/-- **C3.** The equity curve: empty input yields the empty sequence
(not an error); a window whose profits all coerce yields one point per
record in ascending-timestamp order, each carrying the cumulative
profit sum rounded to two decimals and the `close_time`-else-`timestamp`
date; and the spec's two-trade example evaluates to the listed points. -/
theorem equity_curve_spec :
    equity_curve [] = .ok [] ∧
    (∀ trades : List TradeRec, (∀ r ∈ trades, ProfitOk r) →
      ∃ pts, equity_curve trades = .ok pts ∧
        pts.length = trades.length ∧
        ∀ i, i < trades.length →
          pts.getD i ⟨"", 0⟩ =
            ⟨dateOf ((sortAsc trades).getD i default),
              round2 (profitSum ((sortAsc trades).take (i + 1)))⟩) ∧
    equity_curve
      [⟨none, none, some "t1", none, some (.num 50), false⟩,
       ⟨none, none, some "t2", none, some (.num (-20)), false⟩] =
      .ok [⟨"t1", 50⟩, ⟨"t2", 30⟩] := by
  have main : ∀ trades : List TradeRec, (∀ r ∈ trades, ProfitOk r) →
      ∃ pts, equity_curve trades = .ok pts ∧
        pts.length = trades.length ∧
        ∀ i, i < trades.length →
          pts.getD i ⟨"", 0⟩ =
            ⟨dateOf ((sortAsc trades).getD i default),
              round2 (profitSum ((sortAsc trades).take (i + 1)))⟩ := by
    intro trades hall
    cases trades with
    | nil =>
      refine ⟨[], rfl, rfl, ?_⟩
      intro i hi
      simp at hi
    | cons t ts =>
      have hsall : ∀ r ∈ sortAsc (t :: ts), ProfitOk r := fun r hr =>
        hall r ((List.mem_insertionSort ascByTs).mp hr)
      refine ⟨equityPts 0 (sortAsc (t :: ts)), ?_, ?_, ?_⟩
      · show equity_curve (t :: ts) = _
        unfold equity_curve
        rw [equityLoop_ok _ 0 hsall]
        rfl
      · rw [equityPts_length, sortAsc, List.length_insertionSort]
      · intro i hi
        have hi' : i < (sortAsc (t :: ts)).length := by
          rw [sortAsc, List.length_insertionSort]
          exact hi
        have h := equityPts_getD ⟨"", 0⟩ default (sortAsc (t :: ts)) 0 i hi'
        simpa using h
  refine ⟨rfl, main, ?_⟩
  have hsorted : List.Sorted ascByTs
      [(⟨none, none, some "t1", none, some (.num 50), false⟩ : TradeRec),
       ⟨none, none, some "t2", none, some (.num (-20)), false⟩] := by
    refine List.sorted_cons.mpr ⟨?_, ?_⟩
    · intro b hb
      simp only [List.mem_singleton] at hb
      subst hb
      decide
    · simp
  have hs : sortAsc
      [(⟨none, none, some "t1", none, some (.num 50), false⟩ : TradeRec),
       ⟨none, none, some "t2", none, some (.num (-20)), false⟩] =
      [⟨none, none, some "t1", none, some (.num 50), false⟩,
       ⟨none, none, some "t2", none, some (.num (-20)), false⟩] :=
    hsorted.insertionSort_eq
  show equity_curve _ = _
  unfold equity_curve
  rw [show ([(⟨none, none, some "t1", none, some (.num 50), false⟩ : TradeRec),
      ⟨none, none, some "t2", none, some (.num (-20)), false⟩].isEmpty) = false
      from rfl]
  simp only [Bool.false_eq_true, if_false, hs]
  rw [equityLoop_ok _ 0 (by intro r hr; fin_cases hr <;> rfl)]
  norm_num [equityPts, dateOf, profitVal, profitOf, pyFloat, round2,
    EquityPoint.mk.injEq]

/-- Witness for C3 at a concrete one-record window. -/
theorem equity_curve_spec_witness :
    (∀ r ∈ [(⟨none, none, some "t1", some "c1", some (.num 5), false⟩ :
        TradeRec)], ProfitOk r) ∧
    (∃ pts, equity_curve
        [⟨none, none, some "t1", some "c1", some (.num 5), false⟩] =
        .ok pts ∧
      pts.length =
        [(⟨none, none, some "t1", some "c1", some (.num 5), false⟩ :
          TradeRec)].length ∧
      ∀ i, i <
          [(⟨none, none, some "t1", some "c1", some (.num 5), false⟩ :
            TradeRec)].length →
        pts.getD i ⟨"", 0⟩ =
          ⟨dateOf ((sortAsc
              [⟨none, none, some "t1", some "c1", some (.num 5),
                false⟩]).getD i default),
            round2 (profitSum ((sortAsc
              [⟨none, none, some "t1", some "c1", some (.num 5),
                false⟩]).take (i + 1)))⟩) :=
  ⟨by intro r hr; simp only [List.mem_singleton] at hr; subst hr; rfl,
    equity_curve_spec.2.1 _
      (by intro r hr; simp only [List.mem_singleton] at hr; subst hr; rfl)⟩

/-- **C8.** The equity curve is invariant under input order when the
timestamps are pairwise distinct: permuting the window leaves the
computed curve identical. -/
theorem equity_curve_order_invariant (l₁ l₂ : List TradeRec)
    (hp : l₁.Perm l₂)
    (hd : l₁.Pairwise (fun a b => tsKey a ≠ tsKey b)) :
    equity_curve l₁ = equity_curve l₂ := by
  have hs := sortAsc_eq_of_perm hp hd
  have hempty : l₁.isEmpty = l₂.isEmpty := by
    cases l₁ with
    | nil =>
      have h2 : l₂ = [] := hp.symm.eq_nil
      rw [h2]
    | cons a as =>
      cases l₂ with
      | nil =>
        have := hp.length_eq
        simp at this
      | cons b bs => rfl
  unfold equity_curve
  rw [hempty, hs]

/-- Witness for C8: the spec's two trades fed in reverse order produce
the identical curve. -/
theorem equity_curve_order_invariant_witness :
    (([(⟨none, none, some "t2", none, none, false⟩ : TradeRec),
        ⟨none, none, some "t1", none, none, false⟩].Perm
      [⟨none, none, some "t1", none, none, false⟩,
        ⟨none, none, some "t2", none, none, false⟩]) ∧
     List.Pairwise (fun a b => tsKey a ≠ tsKey b)
       [(⟨none, none, some "t2", none, none, false⟩ : TradeRec),
        ⟨none, none, some "t1", none, none, false⟩]) ∧
    equity_curve
      [⟨none, none, some "t2", none, none, false⟩,
       ⟨none, none, some "t1", none, none, false⟩] =
    equity_curve
      [⟨none, none, some "t1", none, none, false⟩,
       ⟨none, none, some "t2", none, none, false⟩] :=
  ⟨⟨List.Perm.swap _ _ [], by decide⟩,
    equity_curve_order_invariant _ _ (List.Perm.swap _ _ []) (by decide)⟩
